import Mathlib

/-!
Shallow embedding of `sopa/patching.py` (classes `Patches1D` and `Patches2D`),
together with theorems settling the specification claims about the tiling
and transcript-sharding code.

Conventions of the embedding:
* Python floats are modelled as rationals (`ℚ`); `math.ceil` is `Int.ceil`,
  Python `int()` is truncation toward zero (`pyInt`).
* Fallible Python code (raising `ZeroDivisionError`, `AssertionError`,
  `ValueError`) is modelled with `Except PyErr` / `Option PyErr`.
* `Patches1D.update` mutates `self.patch_width` and then asserts; we model it
  as returning the post-mutation state together with the optional error, so
  the state after a failed assertion is observable (as it is in Python).
* External geometry (shapely polygons) is abstracted: a `Patch` carries its
  bounds, its area, and a point-membership test (`STRtree.query` with the
  `intersects` predicate on point geometries).
-/

namespace SopaPatching

/-- Errors raised by the embedded Python code. -/
inductive PyErr where
  | zeroDivisionError
  | assertionError
  | valueError
deriving DecidableEq, Repr

/-- Python `int()` on a rational: truncation toward zero
(floor for nonnegative arguments, ceiling for negative ones). -/
def pyInt (q : ℚ) : ℤ := if 0 ≤ q then ⌊q⌋ else ⌈q⌉

/-- `Patches1D` state: `xmin`, `xmax`, `patch_width`, `patch_overlap`,
`int_coords`, and the count `_count` stored by `__init__`.
(`self.delta` is derived, see `Patches1D.delta`.) -/
structure Patches1D where
  xmin : ℚ
  xmax : ℚ
  patch_width : ℚ
  patch_overlap : ℚ
  int_coords : Bool
  _count : ℤ
deriving DecidableEq, Repr

/-- `self.delta = self.xmax - self.xmin`. -/
def Patches1D.delta (p : Patches1D) : ℚ := p.xmax - p.xmin

/-- `Patches1D.count`:
`1` if `patch_width >= delta`, else
`ceil((delta - patch_overlap) / (patch_width - patch_overlap))`;
the division raises `ZeroDivisionError` when `patch_width == patch_overlap`. -/
def Patches1D.count (p : Patches1D) : Except PyErr ℤ :=
  if p.delta ≤ p.patch_width then .ok 1
  else if p.patch_width - p.patch_overlap = 0 then .error .zeroDivisionError
  else .ok ⌈(p.delta - p.patch_overlap) / (p.patch_width - p.patch_overlap)⌉

/-- `Patches1D.__init__`: stores the arguments and `self._count = self.count()`
(which can raise `ZeroDivisionError`). -/
def Patches1D.make (xmin xmax patch_width patch_overlap : ℚ) (int_coords : Bool) :
    Except PyErr Patches1D :=
  let p : Patches1D :=
    { xmin := xmin, xmax := xmax, patch_width := patch_width,
      patch_overlap := patch_overlap, int_coords := int_coords, _count := 0 }
  match p.count with
  | .error e => .error e
  | .ok c => .ok { p with _count := c }

/-- `Patches1D.update`: replaces `self.patch_width`, then
`assert self._count == self.count()`.  Returns the post-mutation state and the
error (if any); the state is mutated even when the assertion fails. -/
def Patches1D.update (p : Patches1D) (patch_width : ℚ) : Patches1D × Option PyErr :=
  let p' := { p with patch_width := patch_width }
  match p'.count with
  | .error e => (p', some e)
  | .ok c => (p', if p._count = c then none else some .assertionError)

/-- `Patches1D.tight_width`:
`ceil((delta + (_count - 1) * patch_overlap) / _count)`. -/
def Patches1D.tight_width (p : Patches1D) : ℤ :=
  ⌈(p.delta + ((p._count : ℚ) - 1) * p.patch_overlap) / (p._count : ℚ)⌉

/-- `Patches1D.__getitem__`: `start_delta = i * (patch_width - patch_overlap)`,
`x0 = xmin + start_delta`, `x1 = x0 + patch_width`, both converted with
`int()` when `int_coords` is set.  No bounds check on `i`. -/
def Patches1D.getitem (p : Patches1D) (i : ℤ) : ℚ × ℚ :=
  let start_delta : ℚ := (i : ℚ) * (p.patch_width - p.patch_overlap)
  let x0 : ℚ := p.xmin + start_delta
  let x1 : ℚ := p.xmin + start_delta + p.patch_width
  if p.int_coords then ((pyInt x0 : ℚ), (pyInt x1 : ℚ)) else (x0, x1)

/-- The element the `Patches2D` constructor tiles: a raster image with pixel
extents `nx`, `ny` (`len(element.coords["x"])`, `len(element.coords["y"])`),
a dask dataframe of transcript points with `x`/`y` columns, or anything else
(which raises `ValueError`). -/
inductive Element where
  | image (nx ny : ℕ)
  | dataframe (points : List (ℚ × ℚ))
  | other
deriving DecidableEq

/-- Bounds resolution in `Patches2D.__init__`: for an image,
`(0, 0, nx, ny)` with `tight = False, int_coords = True`; for a dataframe,
column-wise min/max with `tight = True, int_coords = False`; otherwise
`ValueError`.  (An empty dataframe has no min/max; we raise there, a case the
claims never exercise.) -/
def Element.bounds : Element → Except PyErr (ℚ × ℚ × ℚ × ℚ × Bool × Bool)
  | .image nx ny => .ok (0, 0, (nx : ℚ), (ny : ℚ), false, true)
  | .dataframe pts =>
    match (pts.map Prod.fst).min?, (pts.map Prod.snd).min?,
          (pts.map Prod.fst).max?, (pts.map Prod.snd).max? with
    | some xmin, some ymin, some xmax, some ymax =>
      .ok (xmin, ymin, xmax, ymax, true, false)
    | _, _, _, _ => .error .valueError
  | .other => .error .valueError

/-- The optional ROI polygon, abstracted to its `intersects` test against a
tile's bounding box `(xmin, ymin, xmax, ymax)`. -/
def Roi : Type := (ℚ × ℚ × ℚ × ℚ) → Bool

/-- `Patches2D.iloc(ix, iy)`: `[xmin, ymin, xmax, ymax]` from the two axes. -/
def iloc2 (patch_x patch_y : Patches1D) (ix iy : ℕ) : ℚ × ℚ × ℚ × ℚ :=
  let bx := patch_x.getitem ix
  let by' := patch_y.getitem iy
  (bx.1, by'.1, bx.2, by'.2)

/-- `Patches2D` state after construction: the two axis tilers, the (possibly
tight-corrected) width/overlap, the flags, and the kept index pairs
`self._ilocs`. -/
structure Patches2D where
  patch_x : Patches1D
  patch_y : Patches1D
  patch_width : ℚ
  patch_overlap : ℚ
  tight : Bool
  int_coords : Bool
  ilocs : List (ℕ × ℕ)

/-- `Patches2D.pair_indices(i)`: `iy, ix = divmod(i, patch_x._count)`,
returned as `(ix, iy)`. -/
def Patches2D.pair_indices (P : Patches2D) (i : ℕ) : ℕ × ℕ :=
  (i % P.patch_x._count.toNat, i / P.patch_x._count.toNat)

/-- `Patches2D.iloc` on the stored axes. -/
def Patches2D.iloc (P : Patches2D) (ix iy : ℕ) : ℚ × ℚ × ℚ × ℚ :=
  iloc2 P.patch_x P.patch_y ix iy

/-- The `_ilocs` loop at the end of `Patches2D.__init__`: enumerate
`range(patch_x._count * patch_y._count)`, map through `pair_indices`, and keep
the pair when there is no ROI or the ROI intersects the tile's box. -/
def Patches2D.assemble (patch_x patch_y : Patches1D) (patch_width patch_overlap : ℚ)
    (tight int_coords : Bool) (roi : Option Roi) : Patches2D :=
  { patch_x := patch_x, patch_y := patch_y, patch_width := patch_width,
    patch_overlap := patch_overlap, tight := tight, int_coords := int_coords,
    ilocs := (List.range (patch_x._count * patch_y._count).toNat).filterMap fun i =>
      let ix := i % patch_x._count.toNat
      let iy := i / patch_x._count.toNat
      match roi with
      | none => some (ix, iy)
      | some r => if r (iloc2 patch_x patch_y ix iy) then some (ix, iy) else none }

/-- `Patches2D.__init__`: resolve element bounds, build the two `Patches1D`,
`assert patch_width > patch_overlap`, apply the tight-width update when
`tight`, then build `_ilocs`. -/
def Patches2D.make (el : Element) (roi : Option Roi) (patch_width patch_overlap : ℚ) :
    Except PyErr Patches2D :=
  match el.bounds with
  | .error e => .error e
  | .ok (xmin, ymin, xmax, ymax, tight, int_coords) =>
    match Patches1D.make xmin xmax patch_width patch_overlap int_coords with
    | .error e => .error e
    | .ok patch_x =>
      match Patches1D.make ymin ymax patch_width patch_overlap int_coords with
      | .error e => .error e
      | .ok patch_y =>
        if patch_overlap < patch_width then
          if tight then
            match patch_x.update ((max patch_x.tight_width patch_y.tight_width : ℤ) : ℚ) with
            | (_, some e) => .error e
            | (patch_x', none) =>
              match patch_y.update ((max patch_x.tight_width patch_y.tight_width : ℤ) : ℚ) with
              | (_, some e) => .error e
              | (patch_y', none) =>
                .ok (Patches2D.assemble patch_x' patch_y'
                      ((max patch_x.tight_width patch_y.tight_width : ℤ) : ℚ) patch_overlap
                      tight int_coords roi)
          else
            .ok (Patches2D.assemble patch_x patch_y patch_width patch_overlap
                  tight int_coords roi)
        else .error .assertionError

/-- A tile polygon as seen by `patchify_transcripts`: its `bounds`
`(tx0, ty0, tx1, ty1)`, its `area`, and the point-membership test used by
`STRtree.query(patch, predicate="intersects")`. -/
structure Patch where
  bxmin : ℚ
  bymin : ℚ
  bxmax : ℚ
  bymax : ℚ
  area : ℚ
  contains : ℚ → ℚ → Bool

/-- `box(*patch.bounds).area`. -/
def Patch.boxArea (pa : Patch) : ℚ := (pa.bxmax - pa.bxmin) * (pa.bymax - pa.bymin)

/-- `df[(df.x >= tx0) & (df.x <= tx1) & (df.y >= ty0) & (df.y <= ty1)]`. -/
def bboxFilter (pa : Patch) (df : List (ℚ × ℚ)) : List (ℚ × ℚ) :=
  df.filter fun r =>
    decide (pa.bxmin ≤ r.1) && decide (r.1 ≤ pa.bxmax) &&
    decide (pa.bymin ≤ r.2) && decide (r.2 ≤ pa.bymax)

/-- One iteration of the loop in `Patches2D.patchify_transcripts`
(with `use_prior=False` and no `cell_key`), returning the dataframe variable
after the iteration together with the row set written for this tile.
Note the loop body rebinds `df` to the bbox-filtered frame. -/
def patchifyStep (df : List (ℚ × ℚ)) (pa : Patch) : List (ℚ × ℚ) × List (ℚ × ℚ) :=
  let df' := bboxFilter pa df
  if pa.area < pa.boxArea then
    (df', df'.filter fun r => pa.contains r.1 r.2)
  else
    (df', df')

/-- `Patches2D.patchify_transcripts` over the list of tile polygons: the
row sets written to the per-tile files, in tile order.  The dataframe variable
threads through the iterations exactly as in the source. -/
def patchify_transcripts : List (ℚ × ℚ) → List Patch → List (List (ℚ × ℚ))
  | _, [] => []
  | df, pa :: rest =>
    let s := patchifyStep df pa
    s.2 :: patchify_transcripts s.1 rest

/-- An axis-aligned rectangular patch (no ROI clipping): its area equals its
bounding-box area and its membership test is the box test. -/
def boxPatch (x0 y0 x1 y1 : ℚ) : Patch :=
  { bxmin := x0, bymin := y0, bxmax := x1, bymax := y1,
    area := (x1 - x0) * (y1 - y0),
    contains := fun x y => decide (x0 ≤ x) && decide (x ≤ x1) &&
      decide (y0 ≤ y) && decide (y ≤ y1) }

/-- A ROI-clipped tile used as a concrete witness: the box `[0,2] × [0,2]`
clipped to the triangle `x + y ≤ 2` (area `2`, bbox area `4`). -/
def triPatch : Patch :=
  { bxmin := 0, bymin := 0, bxmax := 2, bymax := 2, area := 2,
    contains := fun x y => decide (x + y ≤ 2) }

/-- The concrete grid produced by tiling a `2 × 1` raster with width `1`,
overlap `0`: two tiles along x, one along y, kept pairs `[(0,0), (1,0)]`. -/
def gridC4 : Patches2D :=
  { patch_x := Patches1D.mk 0 2 1 0 true 2,
    patch_y := Patches1D.mk 0 1 1 0 true 1,
    patch_width := 1, patch_overlap := 0, tight := false, int_coords := true,
    ilocs := [(0, 0), (1, 0)] }

/-- Evaluation helper: the ceiling of a rational as a negated floor. -/
theorem ceil_eval (q : ℚ) : ⌈q⌉ = -⌊-q⌋ := by
  rw [Int.floor_neg, neg_neg]

/-- `int()` of an integer value is that integer. -/
theorem pyInt_intCast (n : ℤ) : pyInt (n : ℚ) = n := by
  unfold pyInt
  split <;> simp

/-- `int()` is an odd function: it truncates toward zero. -/
theorem pyInt_neg (q : ℚ) : pyInt (-q) = -pyInt q := by
  unfold pyInt
  rcases lt_trichotomy q 0 with h | h | h
  · rw [if_pos (by linarith), if_neg (not_le.mpr h), Int.floor_neg]
  · simp [h]
  · rw [if_neg (by simpa using not_le.mpr h), if_pos h.le, Int.ceil_neg]

/-- `int()` is monotone. -/
theorem pyInt_mono {a b : ℚ} (h : a ≤ b) : pyInt a ≤ pyInt b := by
  unfold pyInt
  split_ifs with h1 h2 h2
  · exact Int.floor_le_floor h
  · exact absurd (le_trans h1 h) h2
  · refine le_trans (Int.ceil_le.mpr ?_) (Int.floor_nonneg.mpr h2)
    exact_mod_cast le_of_not_le h1
  · exact Int.ceil_le_ceil h

/-- `int()` does not exceed a nonnegative argument. -/
theorem pyInt_le_self {q : ℚ} (h : 0 ≤ q) : (pyInt q : ℚ) ≤ q := by
  unfold pyInt
  rw [if_pos h]
  exact Int.floor_le q

/-- Any integer below the argument is below its `int()`. -/
theorem le_pyInt {n : ℤ} {v : ℚ} (h : (n : ℚ) ≤ v) : n ≤ pyInt v := by
  unfold pyInt
  split
  · exact Int.le_floor.mpr h
  · exact_mod_cast le_trans h (Int.le_ceil v)

/-- Case analysis of a successful `Patches1D.count`. -/
theorem count_ok_cases (p : Patches1D) (c : ℤ) (h : p.count = .ok c) :
    (p.delta ≤ p.patch_width ∧ c = 1) ∨
    (p.patch_width < p.delta ∧ p.patch_width - p.patch_overlap ≠ 0 ∧
      c = ⌈(p.delta - p.patch_overlap) / (p.patch_width - p.patch_overlap)⌉) := by
  unfold Patches1D.count at h
  by_cases h1 : p.delta ≤ p.patch_width
  · rw [if_pos h1] at h
    exact Or.inl ⟨h1, by simpa using h.symm⟩
  · rw [if_neg h1] at h
    by_cases h2 : p.patch_width - p.patch_overlap = 0
    · rw [if_pos h2] at h
      exact absurd h (by simp)
    · rw [if_neg h2] at h
      exact Or.inr ⟨not_le.mp h1, h2, by simpa using h.symm⟩

/-- A successful count is at least `1` when the width exceeds the overlap
(or the width covers the whole span). -/
theorem one_le_count (p : Patches1D) (c : ℤ) (h : p.count = .ok c)
    (hw : p.delta ≤ p.patch_width ∨ p.patch_overlap < p.patch_width) : 1 ≤ c := by
  rcases count_ok_cases p c h with ⟨_, rfl⟩ | ⟨hlt, _, rfl⟩
  · exact le_refl 1
  · rcases hw with hw | hw
    · exact absurd hlt (not_lt.mpr hw)
    · have hW : 0 < p.patch_width - p.patch_overlap := by linarith
      have hD : 0 < p.delta - p.patch_overlap := by linarith
      exact Int.ceil_pos.mpr (div_pos hD hW)

/-- A successful count of a tiler whose width is strictly below the span is
at least `2` (when the width exceeds the overlap). -/
theorem two_le_count (p : Patches1D) (c : ℤ) (h : p.count = .ok c)
    (ho : p.patch_overlap < p.patch_width) (hlt : p.patch_width < p.delta) : 2 ≤ c := by
  rcases count_ok_cases p c h with ⟨hle, _⟩ | ⟨_, _, rfl⟩
  · exact absurd hlt (not_lt.mpr hle)
  · have hW : 0 < p.patch_width - p.patch_overlap := by linarith
    have h1 : (1 : ℚ) < (p.delta - p.patch_overlap) / (p.patch_width - p.patch_overlap) :=
      (one_lt_div hW).mpr (by linarith)
    have := Int.lt_ceil.mpr (by exact_mod_cast h1 :
      ((1 : ℤ) : ℚ) < (p.delta - p.patch_overlap) / (p.patch_width - p.patch_overlap))
    omega

/-- `_count` tiles of the current width cover the span: the right end of the
last tile (before integer truncation) is at least `delta` past `xmin`. -/
theorem count_cover (p : Patches1D) (h : p.count = .ok p._count)
    (ho : 0 ≤ p.patch_overlap)
    (hw : p.delta ≤ p.patch_width ∨ p.patch_overlap < p.patch_width) :
    p.delta ≤ ((p._count : ℚ) - 1) * (p.patch_width - p.patch_overlap) + p.patch_width := by
  rcases count_ok_cases p p._count h with ⟨h1, hc1⟩ | ⟨hlt, hne, hce⟩
  · rw [hc1]
    push_cast
    linarith
  · have ho' : p.patch_overlap < p.patch_width := by
      rcases hw with hw | hw
      · exact absurd hlt (not_lt.mpr hw)
      · exact hw
    have hW : 0 < p.patch_width - p.patch_overlap := by linarith
    have hle : (p.delta - p.patch_overlap) / (p.patch_width - p.patch_overlap)
        ≤ (p._count : ℚ) := by
      rw [hce]
      exact Int.le_ceil _
    rw [div_le_iff hW] at hle
    nlinarith [hle]

/-- Normal form of `Patches1D.__getitem__`. -/
theorem getitem_eq (p : Patches1D) (i : ℤ) :
    p.getitem i =
      (if p.int_coords then
        ((pyInt (p.xmin + (i : ℚ) * (p.patch_width - p.patch_overlap)) : ℚ),
         (pyInt (p.xmin + (i : ℚ) * (p.patch_width - p.patch_overlap) + p.patch_width) : ℚ))
      else
        (p.xmin + (i : ℚ) * (p.patch_width - p.patch_overlap),
         p.xmin + (i : ℚ) * (p.patch_width - p.patch_overlap) + p.patch_width)) := by
  unfold Patches1D.getitem
  rfl

/-- Axis coverage: every coordinate of the span `[xmin, xmax]` lies in the
bounds of some tile with index below `_count`.  The integer-coordinate side
conditions correspond to the raster branch of the `Patches2D` constructor
(`xmin = 0`, integral `xmax`, positive step). -/
theorem Patches1D.coverage (p : Patches1D)
    (ho : 0 ≤ p.patch_overlap)
    (hc : p.count = .ok p._count)
    (hw : p.delta ≤ p.patch_width ∨ p.patch_overlap < p.patch_width)
    (hint : p.int_coords = true →
      0 ≤ p.xmin ∧ 0 ≤ p.patch_width - p.patch_overlap ∧ ∃ n : ℤ, p.xmax = (n : ℚ))
    (x : ℚ) (hx0 : p.xmin ≤ x) (hx1 : x ≤ p.xmax) :
    ∃ i : ℕ, (i : ℤ) < p._count ∧ (p.getitem i).1 ≤ x ∧ x ≤ (p.getitem i).2 := by
  have hc1 : 1 ≤ p._count := one_le_count p p._count hc hw
  set c := p._count with hcdef
  set cn := c.toNat with hcn
  have hcnc : (cn : ℤ) = c := Int.toNat_of_nonneg (by omega)
  have hcn1 : 1 ≤ cn := by omega
  -- normal form of the bounds at a natural-number index
  have key : ∀ i : ℕ, p.getitem (i : ℤ) =
      (if p.int_coords then
        ((pyInt (p.xmin + (i : ℚ) * (p.patch_width - p.patch_overlap)) : ℚ),
         (pyInt (p.xmin + (i : ℚ) * (p.patch_width - p.patch_overlap) + p.patch_width) : ℚ))
      else
        (p.xmin + (i : ℚ) * (p.patch_width - p.patch_overlap),
         p.xmin + (i : ℚ) * (p.patch_width - p.patch_overlap) + p.patch_width)) := by
    intro i
    rw [getitem_eq]
    norm_num
  -- the first tile starts at or before x
  have ha0 : (p.getitem ((0 : ℕ) : ℤ)).1 ≤ x := by
    rw [key 0]
    by_cases hicase : p.int_coords
    · rw [if_pos hicase]
      have h0 : (0 : ℚ) ≤ p.xmin + ((0 : ℕ) : ℚ) * (p.patch_width - p.patch_overlap) := by
        have := (hint hicase).1
        push_cast
        linarith
      calc (pyInt (p.xmin + ((0 : ℕ) : ℚ) * (p.patch_width - p.patch_overlap)) : ℚ)
          ≤ p.xmin + ((0 : ℕ) : ℚ) * (p.patch_width - p.patch_overlap) := pyInt_le_self h0
        _ ≤ x := by push_cast; linarith
    · rw [if_neg hicase]
      push_cast
      linarith
  -- consecutive tiles chain together
  have hchain : ∀ i : ℕ, (p.getitem ((i + 1 : ℕ) : ℤ)).1 ≤ (p.getitem (i : ℤ)).2 := by
    intro i
    have hraw : p.xmin + ((i + 1 : ℕ) : ℚ) * (p.patch_width - p.patch_overlap)
        ≤ p.xmin + (i : ℚ) * (p.patch_width - p.patch_overlap) + p.patch_width := by
      push_cast
      nlinarith [ho]
    rw [key (i + 1), key i]
    by_cases hicase : p.int_coords
    · rw [if_pos hicase, if_pos hicase]
      dsimp only
      exact_mod_cast pyInt_mono hraw
    · rw [if_neg hicase, if_neg hicase]
      exact hraw
  -- the last tile ends at or after x
  have hcover : p.xmax ≤ p.xmin + ((cn - 1 : ℕ) : ℚ) * (p.patch_width - p.patch_overlap)
      + p.patch_width := by
    have hcast : ((cn - 1 : ℕ) : ℚ) = (c : ℚ) - 1 := by
      have h' : ((cn - 1 : ℕ) : ℤ) = c - 1 := by omega
      exact_mod_cast congrArg (fun z : ℤ => (z : ℚ)) h'
    rw [hcast]
    have := count_cover p hc ho hw
    unfold Patches1D.delta at this
    linarith
  have hlast : x ≤ (p.getitem ((cn - 1 : ℕ) : ℤ)).2 := by
    rw [key (cn - 1)]
    by_cases hicase : p.int_coords
    · rw [if_pos hicase]
      obtain ⟨n, hn⟩ := (hint hicase).2.2
      have hn_le : (n : ℚ) ≤ p.xmin + ((cn - 1 : ℕ) : ℚ) * (p.patch_width - p.patch_overlap)
          + p.patch_width := by rw [← hn]; exact hcover
      have := le_pyInt hn_le
      calc x ≤ p.xmax := hx1
        _ = (n : ℚ) := hn
        _ ≤ _ := by dsimp only; exact_mod_cast this
    · rw [if_neg hicase]
      exact le_trans hx1 hcover
  -- pick the greatest tile index whose start is at or before x
  have hPj := Nat.findGreatest_spec (P := fun i => (p.getitem (i : ℤ)).1 ≤ x)
    (Nat.zero_le (cn - 1)) ha0
  set j := Nat.findGreatest (fun i => (p.getitem (i : ℤ)).1 ≤ x) (cn - 1) with hj
  have hj_le : j ≤ cn - 1 := Nat.findGreatest_le _
  by_cases hbx : x ≤ (p.getitem (j : ℤ)).2
  · exact ⟨j, by omega, hPj, hbx⟩
  · push_neg at hbx
    rcases eq_or_lt_of_le hj_le with heq | hlt
    · rw [heq] at hbx
      exact absurd hlast (not_le.mpr hbx)
    · have hPj1 : (p.getitem ((j + 1 : ℕ) : ℤ)).1 ≤ x := le_trans (hchain j) hbx.le
      have hng := Nat.findGreatest_is_greatest (P := fun i => (p.getitem (i : ℤ)).1 ≤ x)
        (show j < j + 1 by omega) (by omega)
      exact absurd hPj1 hng

/-- C6: for every axis tiler and every index `i`, indexing returns
`[x0, x1]` with `start = i * (patch_width - patch_overlap)`,
`x0 = xmin + start`, `x1 = x0 + patch_width`; when `int_coords` is set both
ends are converted with `int()`, which truncates toward zero (it is odd, and
on `-3/2` it gives `-1`, not the floor `-2`). -/
theorem getitem_affine_formula_and_truncation :
    (∀ (p : Patches1D) (i : ℤ),
      p.getitem i =
        (if p.int_coords then
          ((pyInt (p.xmin + (i : ℚ) * (p.patch_width - p.patch_overlap)) : ℚ),
           (pyInt (p.xmin + (i : ℚ) * (p.patch_width - p.patch_overlap) + p.patch_width) : ℚ))
        else
          (p.xmin + (i : ℚ) * (p.patch_width - p.patch_overlap),
           p.xmin + (i : ℚ) * (p.patch_width - p.patch_overlap) + p.patch_width))) ∧
    (∀ q : ℚ, pyInt (-q) = -pyInt q) ∧
    pyInt (-(3 : ℚ) / 2) = -1 ∧ ⌊(-(3 : ℚ) / 2)⌋ = -2 := by
  refine ⟨getitem_eq, pyInt_neg, ?_, ?_⟩
  · norm_num [pyInt, ceil_eval]
  · norm_num

/-- C7: `count()` is `1` whenever `patch_width ≥ delta` (regardless of the
overlap), and otherwise is `ceil((delta - overlap) / (width - overlap))`
(whenever that division is defined); in particular for `delta = 100`,
`width = 30`, `overlap = 10` it is `5`. -/
theorem count_formula (p : Patches1D) :
    (p.delta ≤ p.patch_width → p.count = .ok 1) ∧
    (p.patch_width < p.delta → p.patch_width - p.patch_overlap ≠ 0 →
      p.count = .ok ⌈(p.delta - p.patch_overlap) / (p.patch_width - p.patch_overlap)⌉) ∧
    (Patches1D.mk 0 100 30 10 false 5).count = .ok 5 := by
  refine ⟨fun h => ?_, fun h1 h2 => ?_, ?_⟩
  · unfold Patches1D.count
    rw [if_pos h]
  · unfold Patches1D.count
    rw [if_neg (not_le.mpr h1), if_neg h2]
  · norm_num [Patches1D.count, Patches1D.delta, ceil_eval]

/-- Witness for C7 at concrete inputs: a width covering the span yields one
tile, and `(0, 100, 30, 10)` yields the ceiling-division value. -/
theorem count_formula_witness :
    (Patches1D.mk 0 20 30 10 false 1).count = .ok 1 ∧
    (Patches1D.mk 0 100 30 10 false 5).count =
      .ok ⌈((Patches1D.mk 0 100 30 10 false 5).delta -
            (Patches1D.mk 0 100 30 10 false 5).patch_overlap) /
           ((Patches1D.mk 0 100 30 10 false 5).patch_width -
            (Patches1D.mk 0 100 30 10 false 5).patch_overlap)⌉ :=
  ⟨(count_formula _).1 (by norm_num [Patches1D.delta]),
   (count_formula _).2.1 (by norm_num [Patches1D.delta]) (by norm_num)⟩

/-- C9: `update` first replaces the stored width and only then checks the
count-preservation assertion, so after a failing `update` the tiler is left
with the new width; concretely `(0, 100, 30, 10)` updated to width `60`
raises the assertion and ends with `patch_width = 60`. -/
theorem update_not_atomic_on_failure (p : Patches1D) (w : ℚ) :
    (p.update w).1 = { p with patch_width := w } ∧
    ((p.update w).2 = none ↔ ({ p with patch_width := w } : Patches1D).count = .ok p._count) ∧
    ((Patches1D.mk 0 100 30 10 false 5).update 60).1.patch_width = 60 ∧
    ((Patches1D.mk 0 100 30 10 false 5).update 60).2 = some .assertionError := by
  refine ⟨?_, ?_, ?_, ?_⟩
  · unfold Patches1D.update
    cases h : ({ p with patch_width := w } : Patches1D).count <;> simp [h]
  · unfold Patches1D.update
    cases h : ({ p with patch_width := w } : Patches1D).count with
    | error e => simp [h]
    | ok c =>
      simp only [h]
      split_ifs with hc
      · simp [hc]
      · simp only [Except.ok.injEq]
        exact iff_of_false (by simp) fun h' => hc h'.symm
  · norm_num [Patches1D.update, Patches1D.count, Patches1D.delta, ceil_eval]
  · norm_num [Patches1D.update, Patches1D.count, Patches1D.delta, ceil_eval]

/-- C10: indexing performs no bounds check — for every integer `i` (negative
or beyond `_count`) it returns the same affine formula without raising — and
in continuous mode an out-of-range index yields a tile strictly outside the
domain span. -/
theorem getitem_no_bounds_check (p : Patches1D) (i : ℤ) :
    (p.getitem i =
      (if p.int_coords then
        ((pyInt (p.xmin + (i : ℚ) * (p.patch_width - p.patch_overlap)) : ℚ),
         (pyInt (p.xmin + (i : ℚ) * (p.patch_width - p.patch_overlap) + p.patch_width) : ℚ))
      else
        (p.xmin + (i : ℚ) * (p.patch_width - p.patch_overlap),
         p.xmin + (i : ℚ) * (p.patch_width - p.patch_overlap) + p.patch_width))) ∧
    (p.int_coords = false → 0 ≤ p.patch_overlap → p.patch_overlap < p.patch_width →
      ((i < 0 → (p.getitem i).1 < p.xmin) ∧
       (p.count = .ok p._count → p._count ≤ i → p.xmax < (p.getitem i).2))) := by
  constructor
  · exact getitem_eq p i
  · intro hic ho how
    have hW : 0 < p.patch_width - p.patch_overlap := by linarith
    constructor
    · intro hineg
      rw [getitem_eq, if_neg (by simp [hic])]
      dsimp only
      have hiq : (i : ℚ) < 0 := by exact_mod_cast hineg
      have := mul_neg_of_neg_of_pos hiq hW
      linarith
    · intro hcnt hci
      rw [getitem_eq, if_neg (by simp [hic])]
      dsimp only
      have hciq : (p._count : ℚ) ≤ (i : ℚ) := by exact_mod_cast hci
      rcases count_ok_cases p p._count hcnt with ⟨hle, hc1⟩ | ⟨hlt, hne, hce⟩
      · rw [hc1] at hciq
        have hiq1 : (1 : ℚ) ≤ (i : ℚ) := by push_cast at hciq; exact hciq
        have hiW := mul_le_mul_of_nonneg_right hiq1 hW.le
        rw [one_mul] at hiW
        unfold Patches1D.delta at hle
        linarith
      · have hceil : (p.delta - p.patch_overlap) / (p.patch_width - p.patch_overlap)
            ≤ (p._count : ℚ) := by
          rw [hce]
          exact Int.le_ceil _
        rw [div_le_iff hW] at hceil
        have hiW := mul_le_mul_of_nonneg_right hciq hW.le
        unfold Patches1D.delta at hceil hlt
        linarith

/-- Witness for C10: the tiler `(0, 100, 30, 10)` (count 5) indexed at `-1`
starts before `xmin`, and indexed at `5` ends past `xmax`. -/
theorem getitem_no_bounds_check_witness :
    ((Patches1D.mk 0 100 30 10 false 5).getitem (-1)).1 <
      (Patches1D.mk 0 100 30 10 false 5).xmin ∧
    (Patches1D.mk 0 100 30 10 false 5).xmax <
      ((Patches1D.mk 0 100 30 10 false 5).getitem 5).2 :=
  ⟨((getitem_no_bounds_check (Patches1D.mk 0 100 30 10 false 5) (-1)).2 rfl
      (by norm_num) (by norm_num)).1 (by norm_num),
   ((getitem_no_bounds_check (Patches1D.mk 0 100 30 10 false 5) 5).2 rfl
      (by norm_num) (by norm_num)).2
      (by norm_num [Patches1D.count, Patches1D.delta, ceil_eval]) (by norm_num)⟩

/-- C5 counterexample: with integer coordinates and the fractional width
`1/2` (span `[0, 2]`, overlap `0`, count `4`), tile `0` has `x0 = x1 = 0`:
truncation collapses the tile, refuting `x0 < x1` at a valid index. -/
theorem tile_bounds_counterexample :
    Patches1D.make 0 2 (1/2) 0 true = .ok (Patches1D.mk 0 2 (1/2) 0 true 4) ∧
    (0 : ℤ) < (Patches1D.mk 0 2 (1/2) 0 true 4)._count ∧
    ¬(((Patches1D.mk 0 2 (1/2) 0 true 4).getitem 0).1 <
      ((Patches1D.mk 0 2 (1/2) 0 true 4).getitem 0).2) := by
  refine ⟨?_, by norm_num, ?_⟩
  · norm_num [Patches1D.make, Patches1D.count, Patches1D.delta, ceil_eval]
  · norm_num [Patches1D.getitem, pyInt]

/-- C5 amended: `x0 < x1` and the strict overlap of adjacent tiles (exactly
`patch_overlap` in continuous mode) hold for every index in continuous mode,
and in integer-coordinate mode whenever `xmin`, `patch_width` and
`patch_overlap` are integral; fractional widths with `int_coords` can violate
them (see the counterexample). -/
theorem tile_bounds_ordered_amended (p : Patches1D) (i : ℤ)
    (ho : 0 ≤ p.patch_overlap) (how : p.patch_overlap < p.patch_width)
    (hmode : p.int_coords = false ∨
      ((∃ a : ℤ, p.xmin = (a : ℚ)) ∧ (∃ b : ℤ, p.patch_width = (b : ℚ)) ∧
       (∃ e : ℤ, p.patch_overlap = (e : ℚ)))) :
    (p.getitem i).1 < (p.getitem i).2 ∧
    (0 < p.patch_overlap → (p.getitem (i - 1)).2 - (p.getitem i).1 ≥ p.patch_overlap ∧
      (p.getitem i).1 < (p.getitem (i - 1)).2) ∧
    (p.int_coords = false → (p.getitem (i - 1)).2 - (p.getitem i).1 = p.patch_overlap) := by
  by_cases hic : p.int_coords
  · rcases hmode with hmode | ⟨⟨a, ha⟩, ⟨b, hb⟩, ⟨e, he⟩⟩
    · rw [hmode] at hic
      exact absurd hic (by simp)
    · have hbe : e < b := by
        have h' : (e : ℚ) < (b : ℚ) := by rw [← he, ← hb]; exact how
        exact_mod_cast h'
      have he0 : 0 ≤ e := by
        have h' : (0 : ℚ) ≤ (e : ℚ) := by rw [← he]; exact ho
        exact_mod_cast h'
      have hx1 : p.xmin + (i : ℚ) * (p.patch_width - p.patch_overlap) + p.patch_width
          = ((a + i * (b - e) + b : ℤ) : ℚ) := by
        rw [ha, hb, he]
        push_cast
        ring
      have hx1' : p.xmin + ((i - 1 : ℤ) : ℚ) * (p.patch_width - p.patch_overlap) + p.patch_width
          = ((a + (i - 1) * (b - e) + b : ℤ) : ℚ) := by
        rw [ha, hb, he]
        push_cast
        ring
      have hx0 : p.xmin + (i : ℚ) * (p.patch_width - p.patch_overlap)
          = ((a + i * (b - e) : ℤ) : ℚ) := by
        rw [ha, hb, he]
        push_cast
        ring
      rw [getitem_eq, getitem_eq, if_pos hic, if_pos hic]
      dsimp only
      rw [hx1, hx1', hx0, pyInt_intCast, pyInt_intCast, pyInt_intCast]
      push_cast
      have hbeq : (e : ℚ) < (b : ℚ) := by exact_mod_cast hbe
      have he0q : (0 : ℚ) ≤ (e : ℚ) := by exact_mod_cast he0
      refine ⟨by linarith, fun hopos => ?_, fun hfalse => ?_⟩
      · have h0e : (0 : ℚ) < (e : ℚ) := by rw [← he]; exact hopos
        rw [he]
        refine ⟨by nlinarith, by nlinarith⟩
      · rw [hfalse] at hic
        exact absurd hic (by simp)
  · have hic' : p.int_coords = false := by simpa using hic
    rw [getitem_eq, getitem_eq, if_neg hic, if_neg hic]
    dsimp only
    push_cast
    refine ⟨by linarith, fun hopos => ⟨by ring_nf; linarith, by nlinarith⟩, fun _ => by ring⟩

/-- Witness for C5 (amended): the continuous tiler `(0, 100, 30, 10)` at
index `1` has ordered bounds and starts strictly inside tile `0`. -/
theorem tile_bounds_ordered_amended_witness :
    ((Patches1D.mk 0 100 30 10 false 5).getitem 1).1 <
      ((Patches1D.mk 0 100 30 10 false 5).getitem 1).2 ∧
    ((Patches1D.mk 0 100 30 10 false 5).getitem 1).1 <
      ((Patches1D.mk 0 100 30 10 false 5).getitem 0).2 := by
  have h := tile_bounds_ordered_amended (Patches1D.mk 0 100 30 10 false 5) 1
    (by norm_num) (by norm_num) (Or.inl rfl)
  have h10 : (1 : ℤ) - 1 = 0 := by norm_num
  rw [h10] at h
  exact ⟨h.1, (h.2.1 (by norm_num)).2⟩

/-- The sharder produces one output row set per tile. -/
theorem patchify_length (df : List (ℚ × ℚ)) (ps : List Patch) :
    (patchify_transcripts df ps).length = ps.length := by
  induction ps generalizing df with
  | nil => rfl
  | cons pa rest ih => simp [patchify_transcripts, ih]

/-- C1 (code bug): the loop rebinds `df` to the bbox-filtered frame, so tile
`i` is filtered against the rows remaining after tiles `0..i-1`.  With the
point `(5,5)` and two disjoint tiles, tile `1`'s output is empty, while the
claimed row set — the full dataset filtered to tile `1`'s box — is `[(5,5)]`. -/
theorem cumulative_filter_bug :
    (patchify_transcripts [((5 : ℚ), (5 : ℚ))]
        [boxPatch 0 0 1 1, boxPatch 4 4 6 6])[1]? = some [] ∧
    bboxFilter (boxPatch 4 4 6 6) [((5 : ℚ), (5 : ℚ))] = [((5 : ℚ), (5 : ℚ))] ∧
    some ([] : List (ℚ × ℚ)) ≠ some [((5 : ℚ), (5 : ℚ))] := by
  refine ⟨?_, ?_, by simp⟩
  · norm_num [patchify_transcripts, patchifyStep, bboxFilter, boxPatch, Patch.boxArea,
      List.filter]
  · norm_num [bboxFilter, boxPatch, List.filter]

/-- C8: for a ROI-clipped tile (clipped area strictly below the bbox area),
a point inside the tile's bounding box but outside the clipped polygon does
not appear in that tile's output row set. -/
theorem roi_clipped_tile_excludes_outside_points
    (df : List (ℚ × ℚ)) (ps : List Patch) (i : ℕ) (pa : Patch) (out : List (ℚ × ℚ))
    (x y : ℚ)
    (hp : ps[i]? = some pa)
    (hout : (patchify_transcripts df ps)[i]? = some out)
    (harea : pa.area < pa.boxArea)
    (hbox : pa.bxmin ≤ x ∧ x ≤ pa.bxmax ∧ pa.bymin ≤ y ∧ y ≤ pa.bymax)
    (hcont : pa.contains x y = false) :
    (x, y) ∉ out := by
  induction ps generalizing df i with
  | nil => simp at hp
  | cons q rest ih =>
    cases i with
    | zero =>
      rw [List.getElem?_cons_zero, Option.some.injEq] at hp
      subst hp
      rw [show patchify_transcripts df (q :: rest)
          = (patchifyStep df q).2 :: patchify_transcripts (patchifyStep df q).1 rest
          from rfl, List.getElem?_cons_zero, Option.some.injEq] at hout
      subst hout
      rw [patchifyStep]
      rw [if_pos harea]
      intro hmem
      dsimp only at hmem
      rw [List.mem_filter] at hmem
      rw [hmem.2] at hcont
      exact absurd hcont (by simp)
    | succ n =>
      rw [List.getElem?_cons_succ] at hp
      rw [show patchify_transcripts df (q :: rest)
          = (patchifyStep df q).2 :: patchify_transcripts (patchifyStep df q).1 rest
          from rfl, List.getElem?_cons_succ] at hout
      exact ih _ _ hp hout

/-- Witness for C8: the point `(3/2, 3/2)` lies in `triPatch`'s bounding box
but outside the clipped polygon, and the tile's output row set (the empty
list) indeed does not contain it. -/
theorem roi_clipped_tile_excludes_witness :
    (patchify_transcripts [((3 : ℚ)/2, (3 : ℚ)/2)] [triPatch])[0]? = some [] ∧
    ((3 : ℚ)/2, (3 : ℚ)/2) ∉ ([] : List (ℚ × ℚ)) := by
  have heval : (patchify_transcripts [((3 : ℚ)/2, (3 : ℚ)/2)] [triPatch])[0]? = some [] := by
    norm_num [patchify_transcripts, patchifyStep, bboxFilter, triPatch, Patch.boxArea,
      List.filter]
  refine ⟨heval, ?_⟩
  exact roi_clipped_tile_excludes_outside_points [((3 : ℚ)/2, (3 : ℚ)/2)] [triPatch] 0
    triPatch [] (3/2) (3/2) (by simp) heval
    (by norm_num [triPatch, Patch.boxArea])
    (by norm_num [triPatch])
    (by norm_num [triPatch])

/-- Ceiling-division involution on positive integers: if `c = ⌈D/W⌉` then
`⌈D / ⌈D/c⌉⌉ = c`. -/
theorem ceil_div_ceil_div (D W : ℤ) (hD : 0 < D) (hW : 0 < W) :
    ⌈(D : ℚ) / ((⌈(D : ℚ) / ((⌈(D : ℚ) / (W : ℚ)⌉ : ℤ) : ℚ)⌉ : ℤ) : ℚ)⌉
      = ⌈(D : ℚ) / (W : ℚ)⌉ := by
  have hDq : (0 : ℚ) < (D : ℚ) := by exact_mod_cast hD
  have hWq : (0 : ℚ) < (W : ℚ) := by exact_mod_cast hW
  set c : ℤ := ⌈(D : ℚ) / (W : ℚ)⌉ with hc
  have hc0 : 0 < c := Int.ceil_pos.mpr (div_pos hDq hWq)
  have hcq : (0 : ℚ) < (c : ℚ) := by exact_mod_cast hc0
  set q : ℤ := ⌈(D : ℚ) / (c : ℚ)⌉ with hq
  have hq0 : 0 < q := Int.ceil_pos.mpr (div_pos hDq hcq)
  have hqq : (0 : ℚ) < (q : ℚ) := by exact_mod_cast hq0
  have h1 : (D : ℚ) / (c : ℚ) ≤ (q : ℚ) := Int.le_ceil _
  have hDqc : (D : ℚ) ≤ (q : ℚ) * (c : ℚ) := by
    rw [div_le_iff hcq] at h1
    linarith
  have hle : ⌈(D : ℚ) / (q : ℚ)⌉ ≤ c := by
    apply Int.ceil_le.mpr
    rw [div_le_iff hqq]
    push_cast
    linarith
  have h2 : (D : ℚ) / (W : ℚ) ≤ (c : ℚ) := Int.le_ceil _
  have hDcW : (D : ℚ) ≤ (c : ℚ) * (W : ℚ) := by
    rw [div_le_iff hWq] at h2
    linarith
  have hqW : q ≤ W := by
    apply Int.ceil_le.mpr
    rw [div_le_iff hcq]
    push_cast
    linarith
  have hmono : (D : ℚ) / (W : ℚ) ≤ (D : ℚ) / (q : ℚ) :=
    div_le_div_of_nonneg_left hDq.le hqq (by exact_mod_cast hqW)
  have hge : c ≤ ⌈(D : ℚ) / (q : ℚ)⌉ := Int.ceil_le_ceil hmono
  omega

/-- Inversion of a successful `Patches1D.__init__`. -/
theorem make_ok {xmin xmax w o : ℚ} {ic : Bool} {p : Patches1D}
    (h : Patches1D.make xmin xmax w o ic = .ok p) :
    p.xmin = xmin ∧ p.xmax = xmax ∧ p.patch_width = w ∧ p.patch_overlap = o ∧
    p.int_coords = ic ∧ p.count = .ok p._count := by
  unfold Patches1D.make at h
  simp only [] at h
  cases hcnt : (Patches1D.mk xmin xmax w o ic 0).count with
  | error e =>
    rw [hcnt] at h
    exact absurd h (by simp)
  | ok c =>
    rw [hcnt] at h
    simp only [Except.ok.injEq] at h
    subst h
    refine ⟨rfl, rfl, rfl, rfl, rfl, ?_⟩
    rw [show (Patches1D.mk xmin xmax w o ic c).count
      = (Patches1D.mk xmin xmax w o ic 0).count from rfl, hcnt]

/-- C2 counterexample: the valid fractional configuration
`delta = 7/2, width = 6/5, overlap = 0` has count `3`, but
`tight_width() = 2` and `update(2)` recomputes count `2`, so the
count-preservation assertion fails. -/
theorem tight_update_counterexample :
    Patches1D.make 0 (7/2) (6/5) 0 false = .ok (Patches1D.mk 0 (7/2) (6/5) 0 false 3) ∧
    ((Patches1D.mk 0 (7/2) (6/5) 0 false 3).update
      (((Patches1D.mk 0 (7/2) (6/5) 0 false 3).tight_width : ℤ) : ℚ)).2 =
        some .assertionError ∧
    (0 : ℚ) < 7/2 - 0 ∧ (0 : ℚ) ≤ 0 ∧ (0 : ℚ) < 6/5 - 0 := by
  refine ⟨?_, ?_, by norm_num, le_refl 0, by norm_num⟩
  · norm_num [Patches1D.make, Patches1D.count, Patches1D.delta, ceil_eval]
  · norm_num [Patches1D.update, Patches1D.count, Patches1D.tight_width,
      Patches1D.delta, ceil_eval]

/-- C2 amended: for every valid axis configuration with integral
`xmin`, `xmax`, `patch_width`, `patch_overlap` (in particular `delta > 0`,
`0 ≤ overlap < width`), feeding `tight_width()` back into `update` preserves
the stored count, so the assertion passes.  (For fractional configurations
this fails — see the counterexample.) -/
theorem tight_update_preserves_count_int (xi xa w o : ℤ) (ic : Bool) (p : Patches1D)
    (hd : xi < xa) (ho : 0 ≤ o) (how : o < w)
    (hp : Patches1D.make (xi : ℚ) (xa : ℚ) (w : ℚ) (o : ℚ) ic = .ok p) :
    (p.update ((p.tight_width : ℤ) : ℚ)).2 = none := by
  obtain ⟨hxi, hxa, hw, hov, hic, hcnt⟩ := make_ok hp
  set d : ℤ := xa - xi with hdd
  have hd0 : 0 < d := by omega
  have hδ : p.delta = ((d : ℤ) : ℚ) := by
    unfold Patches1D.delta
    rw [hxi, hxa, hdd]
    push_cast
    ring
  by_cases hcase : p.delta ≤ p.patch_width
  · -- one tile: tight width is the whole span
    have hc1 : p._count = 1 := by
      have h' := hcnt
      unfold Patches1D.count at h'
      rw [if_pos hcase] at h'
      simpa using h'.symm
    have htw : p.tight_width = d := by
      unfold Patches1D.tight_width
      rw [hc1, hδ]
      norm_num
    rw [htw]
    have hcount' : ({ p with patch_width := ((d : ℤ) : ℚ) } : Patches1D).count = .ok 1 := by
      unfold Patches1D.count
      rw [if_pos (by rw [show ({ p with patch_width := ((d : ℤ) : ℚ) } : Patches1D).delta
        = p.delta from rfl, hδ])]
    unfold Patches1D.update
    simp only [hcount']
    simp [hc1]
  · -- several tiles: the ceiling-division involution
    push_neg at hcase
    have hwd : w < d := by
      have h' : (w : ℚ) < ((d : ℤ) : ℚ) := by rw [← hw, ← hδ]; exact hcase
      exact_mod_cast h'
    set W : ℤ := w - o with hWd
    set D : ℤ := d - o with hDd
    have hW0 : 0 < W := by omega
    have hD0 : 0 < D := by omega
    have hDq : (0 : ℚ) < (D : ℚ) := by exact_mod_cast hD0
    have hWq : (0 : ℚ) < (W : ℚ) := by exact_mod_cast hW0
    have hnum : p.delta - p.patch_overlap = ((D : ℤ) : ℚ) := by
      rw [hδ, hov, hDd]
      push_cast
      ring
    have hden : p.patch_width - p.patch_overlap = ((W : ℤ) : ℚ) := by
      rw [hw, hov, hWd]
      push_cast
      ring
    have hWne : p.patch_width - p.patch_overlap ≠ 0 := by
      rw [hden]
      exact_mod_cast hW0.ne'
    have hc : p._count = ⌈(D : ℚ) / (W : ℚ)⌉ := by
      have h' := hcnt
      unfold Patches1D.count at h'
      rw [if_neg (not_le.mpr hcase), if_neg hWne, hnum, hden] at h'
      simpa using h'.symm
    have hc2 : 2 ≤ p._count :=
      two_le_count p p._count hcnt (by rw [hov, hw]; exact_mod_cast how) hcase
    have hcq0 : (0 : ℚ) < (p._count : ℚ) := by
      have : (0 : ℤ) < p._count := by omega
      exact_mod_cast this
    set q : ℤ := ⌈(D : ℚ) / (p._count : ℚ)⌉ with hq
    have hq0 : 0 < q := Int.ceil_pos.mpr (div_pos hDq hcq0)
    have htw : p.tight_width = q + o := by
      unfold Patches1D.tight_width
      rw [hδ, hov]
      have hsplit : (((d : ℤ) : ℚ) + ((p._count : ℚ) - 1) * ((o : ℤ) : ℚ)) / (p._count : ℚ)
          = (D : ℚ) / (p._count : ℚ) + ((o : ℤ) : ℚ) := by
        rw [hDd]
        have hcne : (p._count : ℚ) ≠ 0 := hcq0.ne'
        field_simp
        push_cast
        ring
      rw [hsplit, Int.ceil_add_int, ← hq]
    -- the corrected width still needs `_count` tiles
    have hcD : p._count ≤ D := by
      rw [hc]
      apply Int.ceil_le.mpr
      rw [div_le_iff hWq]
      have hW1 : (1 : ℚ) ≤ (W : ℚ) := by exact_mod_cast hW0
      nlinarith
    have hq_le : q ≤ D - 1 := by
      rw [hq]
      apply Int.ceil_le.mpr
      have hcq2 : (2 : ℚ) ≤ (p._count : ℚ) := by exact_mod_cast hc2
      have hDq2 : (2 : ℚ) ≤ (D : ℚ) := by exact_mod_cast le_trans hc2 hcD
      rw [div_le_iff hcq0]
      push_cast
      nlinarith
    rw [htw]
    have hden2 : ((q + o : ℤ) : ℚ) - p.patch_overlap = ((q : ℤ) : ℚ) := by
      rw [hov]
      push_cast
      ring
    have hcnt' : ({ p with patch_width := ((q + o : ℤ) : ℚ) } : Patches1D).count
        = .ok p._count := by
      have hinvol := ceil_div_ceil_div D W hD0 hW0
      rw [← hc, ← hq] at hinvol
      unfold Patches1D.count
      rw [show ({ p with patch_width := ((q + o : ℤ) : ℚ) } : Patches1D).delta
        = p.delta from rfl]
      dsimp only
      rw [if_neg ?notle, if_neg ?nz]
      case notle =>
        rw [hδ]
        push_neg
        have h' : q + o < d := by omega
        exact_mod_cast h'
      case nz =>
        rw [hden2]
        exact_mod_cast hq0.ne'
      rw [hnum, hden2, hinvol]
    unfold Patches1D.update
    simp only [hcnt']
    simp

/-- Witness for C2 (amended): the integral configuration
`(0, 100, 30, 10)` has count `5`, `tight_width() = 28`, and updating to `28`
passes the assertion. -/
theorem tight_update_preserves_count_int_witness :
    ((Patches1D.mk 0 100 30 10 false 5).update
      (((Patches1D.mk 0 100 30 10 false 5).tight_width : ℤ) : ℚ)).2 = none :=
  tight_update_preserves_count_int 0 100 30 10 false (Patches1D.mk 0 100 30 10 false 5)
    (by norm_num) (by norm_num) (by norm_num)
    (by norm_num [Patches1D.make, Patches1D.count, Patches1D.delta, ceil_eval])

/-- C3 counterexample: constructing over a `100 × 100` image with
`patch_width == patch_overlap == 50` raises `ZeroDivisionError` from
`Patches1D.count` (inside `Patches1D.__init__`), not the
width-vs-overlap validation assertion. -/
theorem validation_error_counterexample :
    Patches2D.make (.image 100 100) none 50 50 = .error .zeroDivisionError ∧
    PyErr.zeroDivisionError ≠ PyErr.assertionError := by
  refine ⟨?_, by simp⟩
  norm_num [Patches2D.make, Element.bounds, Patches1D.make, Patches1D.count,
    Patches1D.delta]

/-- C3 amended: with `patch_width == patch_overlap` the construction always
fails during `__init__`, but via `ZeroDivisionError` raised while computing
an axis count whenever the width is below that axis' span (which happens
after the element's bounds have already been computed), and via the
validation `AssertionError` only when the width covers both spans. -/
theorem construction_failure_amended (el : Element) (roi : Option Roi) (w : ℚ)
    (xmin ymin xmax ymax : ℚ) (t ic : Bool)
    (hb : el.bounds = .ok (xmin, ymin, xmax, ymax, t, ic)) :
    Patches2D.make el roi w w =
      .error (if xmax - xmin ≤ w then
        (if ymax - ymin ≤ w then .assertionError else .zeroDivisionError)
        else .zeroDivisionError) := by
  unfold Patches2D.make
  rw [hb]
  by_cases hx : xmax - xmin ≤ w
  · have hcx : (Patches1D.mk xmin xmax w w ic 0).count = .ok 1 := by
      unfold Patches1D.count
      rw [if_pos (show (Patches1D.mk xmin xmax w w ic 0).delta ≤ w from hx)]
    have hpx : Patches1D.make xmin xmax w w ic = .ok (Patches1D.mk xmin xmax w w ic 1) := by
      unfold Patches1D.make
      simp only [hcx]
    by_cases hy : ymax - ymin ≤ w
    · have hcy : (Patches1D.mk ymin ymax w w ic 0).count = .ok 1 := by
        unfold Patches1D.count
        rw [if_pos (show (Patches1D.mk ymin ymax w w ic 0).delta ≤ w from hy)]
      have hpy : Patches1D.make ymin ymax w w ic = .ok (Patches1D.mk ymin ymax w w ic 1) := by
        unfold Patches1D.make
        simp only [hcy]
      rw [if_pos hx, if_pos hy]
      simp only [hpx, hpy, if_neg (lt_irrefl w)]
    · have hcy : (Patches1D.mk ymin ymax w w ic 0).count = .error .zeroDivisionError := by
        unfold Patches1D.count
        rw [if_neg (show ¬((Patches1D.mk ymin ymax w w ic 0).delta ≤ w) from hy),
          if_pos (sub_self w)]
      have hpy : Patches1D.make ymin ymax w w ic = .error .zeroDivisionError := by
        unfold Patches1D.make
        simp only [hcy]
      rw [if_pos hx, if_neg hy]
      simp only [hpx, hpy]
  · have hcx : (Patches1D.mk xmin xmax w w ic 0).count = .error .zeroDivisionError := by
      unfold Patches1D.count
      rw [if_neg (show ¬((Patches1D.mk xmin xmax w w ic 0).delta ≤ w) from hx),
        if_pos (sub_self w)]
    have hpx : Patches1D.make xmin xmax w w ic = .error .zeroDivisionError := by
      unfold Patches1D.make
      simp only [hcx]
    rw [if_neg hx]
    simp only [hpx]

/-- Witness for C3 (amended): over a `30 × 80` image with width = overlap =
`50`, the x-span `30` is covered but the y-span `80` is not, so construction
fails with `ZeroDivisionError`. -/
theorem construction_failure_amended_witness :
    Patches2D.make (.image 30 80) none 50 50 = .error .zeroDivisionError := by
  have h := construction_failure_amended (.image 30 80) none 50
    0 0 ((30 : ℕ) : ℚ) ((80 : ℕ) : ℚ) false true rfl
  rw [if_pos (by norm_num), if_neg (by norm_num)] at h
  exact h

/-- Inversion of a successful `Patches1D.update`. -/
theorem update_ok {p : Patches1D} {v : ℚ} {p' : Patches1D}
    (h : p.update v = (p', none)) :
    p' = { p with patch_width := v } ∧ p'.count = .ok p'._count ∧ p'._count = p._count := by
  simp only [Patches1D.update] at h
  cases hcnt : ({ p with patch_width := v } : Patches1D).count with
  | error e =>
    rw [hcnt] at h
    simp at h
  | ok c =>
    rw [hcnt] at h
    simp only [] at h
    by_cases hc : p._count = c
    · rw [if_pos hc] at h
      have h1 : p' = { p with patch_width := v } := by
        have h2 := congrArg Prod.fst h
        simpa using h2.symm
      refine ⟨h1, ?_, ?_⟩
      · rw [h1, hcnt,
          show ({ p with patch_width := v } : Patches1D)._count = p._count from rfl, hc]
      · rw [h1]
    · rw [if_neg hc] at h
      simp at h

/-- With a single tile, the tight width covers the whole span. -/
theorem tight_width_ge_delta (p : Patches1D) (hc1 : p._count = 1) :
    p.delta ≤ ((p.tight_width : ℤ) : ℚ) := by
  have hval : (p.delta + (((1 : ℤ) : ℚ) - 1) * p.patch_overlap) / ((1 : ℤ) : ℚ)
      = p.delta := by
    push_cast
    ring
  unfold Patches1D.tight_width
  rw [hc1, hval]
  exact Int.le_ceil _

/-- With several tiles, the tight width still exceeds the overlap. -/
theorem tight_width_gt_overlap (p : Patches1D)
    (hcnt : p.count = .ok p._count)
    (how : p.patch_overlap < p.patch_width) (hlt : p.patch_width < p.delta) :
    p.patch_overlap < ((p.tight_width : ℤ) : ℚ) := by
  have hc2 : 2 ≤ p._count := two_le_count p p._count hcnt how hlt
  have hcq : (0 : ℚ) < (p._count : ℚ) := by
    have h0 : (0 : ℤ) < p._count := by omega
    exact_mod_cast h0
  have ht : p.patch_overlap
      < (p.delta + ((p._count : ℚ) - 1) * p.patch_overlap) / (p._count : ℚ) := by
    rw [lt_div_iff hcq]
    nlinarith
  exact lt_of_lt_of_le ht (Int.le_ceil _)

/-- A successful count over a span already covered by the width is `1`. -/
theorem count_one_of_le (p : Patches1D) (hcnt : p.count = .ok p._count)
    (hle : p.delta ≤ p.patch_width) : p._count = 1 := by
  unfold Patches1D.count at hcnt
  rw [if_pos hle] at hcnt
  simpa using hcnt.symm

/-- What the element-bounds resolution guarantees: integer coordinates only
arise for images (origin `0`, integral extents), and tight mode never comes
with integer coordinates. -/
theorem bounds_inv (el : Element) (xmin ymin xmax ymax : ℚ) (t ic : Bool)
    (hb : el.bounds = .ok (xmin, ymin, xmax, ymax, t, ic)) :
    (ic = true → xmin = 0 ∧ ymin = 0 ∧
      (∃ n : ℤ, xmax = (n : ℚ)) ∧ (∃ n : ℤ, ymax = (n : ℚ))) ∧
    (t = true → ic = false) := by
  cases el with
  | image nx ny =>
    unfold Element.bounds at hb
    simp only [Except.ok.injEq, Prod.mk.injEq] at hb
    obtain ⟨h1, h2, h3, h4, h5, h6⟩ := hb
    refine ⟨fun _ => ⟨h1.symm, h2.symm, ⟨nx, by rw [← h3]; push_cast; ring⟩,
      ⟨ny, by rw [← h4]; push_cast; ring⟩⟩, fun ht => ?_⟩
    rw [← h5] at ht
    exact absurd ht (by simp)
  | dataframe pts =>
    simp only [Element.bounds] at hb
    split at hb
    · rw [Except.ok.injEq] at hb
      have h6 := congrArg (fun z : ℚ × ℚ × ℚ × ℚ × Bool × Bool => z.2.2.2.2.2) hb
      simp only [] at h6
      refine ⟨fun hic => ?_, fun _ => h6.symm⟩
      rw [← h6] at hic
      exact absurd hic (by simp)
    · exact absurd hb (by simp)
  | other =>
    unfold Element.bounds at hb
    exact absurd hb (by simp)

/-- The x-axis tiler stored by `assemble`. -/
theorem assemble_patch_x (px py : Patches1D) (w o : ℚ) (t ic : Bool) (roi : Option Roi) :
    (Patches2D.assemble px py w o t ic roi).patch_x = px := rfl

/-- The y-axis tiler stored by `assemble`. -/
theorem assemble_patch_y (px py : Patches1D) (w o : ℚ) (t ic : Bool) (roi : Option Roi) :
    (Patches2D.assemble px py w o t ic roi).patch_y = py := rfl

/-- With no ROI, the filter in `assemble` keeps every index pair. -/
theorem assemble_ilocs_none (px py : Patches1D) (w o : ℚ) (t ic : Bool) :
    (Patches2D.assemble px py w o t ic none).ilocs
      = (List.range (px._count * py._count).toNat).map
        (fun i => (i % px._count.toNat, i / px._count.toNat)) := by
  show List.filterMap _ _ = _
  generalize List.range (px._count * py._count).toNat = l
  induction l with
  | nil => rfl
  | cons a as ih =>
    rw [List.filterMap_cons, List.map_cons]
    simp only []
    rw [ih]

/-- Inversion of a successful `Patches2D.__init__`: the invariants of the two
axis tilers (count stored correctly, width covering the span or exceeding the
overlap, integer-mode side conditions) and the shape of `_ilocs`. -/
theorem make2_ok_inv (el : Element) (roi : Option Roi) (w o : ℚ) (P : Patches2D)
    (h : Patches2D.make el roi w o = .ok P) :
    P.patch_x.count = .ok P.patch_x._count ∧
    P.patch_y.count = .ok P.patch_y._count ∧
    P.patch_x.patch_overlap = o ∧
    P.patch_y.patch_overlap = o ∧
    (P.patch_x.delta ≤ P.patch_x.patch_width ∨
      P.patch_x.patch_overlap < P.patch_x.patch_width) ∧
    (P.patch_y.delta ≤ P.patch_y.patch_width ∨
      P.patch_y.patch_overlap < P.patch_y.patch_width) ∧
    (P.patch_x.int_coords = true →
      0 ≤ P.patch_x.xmin ∧ 0 ≤ P.patch_x.patch_width - P.patch_x.patch_overlap ∧
      ∃ n : ℤ, P.patch_x.xmax = (n : ℚ)) ∧
    (P.patch_y.int_coords = true →
      0 ≤ P.patch_y.xmin ∧ 0 ≤ P.patch_y.patch_width - P.patch_y.patch_overlap ∧
      ∃ n : ℤ, P.patch_y.xmax = (n : ℚ)) ∧
    (roi = none → P.ilocs =
      (List.range (P.patch_x._count * P.patch_y._count).toNat).map
        (fun i => (i % P.patch_x._count.toNat, i / P.patch_x._count.toNat))) := by
  unfold Patches2D.make at h
  cases hb : el.bounds with
  | error e =>
    rw [hb] at h
    exact absurd h (by simp)
  | ok tup =>
    obtain ⟨xmin, ymin, xmax, ymax, t, ic⟩ := tup
    rw [hb] at h
    simp only [] at h
    obtain ⟨hbint, hbtic⟩ := bounds_inv el xmin ymin xmax ymax t ic hb
    cases hpx : Patches1D.make xmin xmax w o ic with
    | error e =>
      rw [hpx] at h
      exact absurd h (by simp)
    | ok px =>
      rw [hpx] at h
      simp only [] at h
      cases hpy : Patches1D.make ymin ymax w o ic with
      | error e =>
        rw [hpy] at h
        exact absurd h (by simp)
      | ok py =>
        rw [hpy] at h
        simp only [] at h
        by_cases how : o < w
        case neg =>
          rw [if_neg how] at h
          exact absurd h (by simp)
        rw [if_pos how] at h
        obtain ⟨hpx1, hpx2, hpx3, hpx4, hpx5, hpx6⟩ := make_ok hpx
        obtain ⟨hpy1, hpy2, hpy3, hpy4, hpy5, hpy6⟩ := make_ok hpy
        cases t with
        | false =>
          rw [if_neg (by simp)] at h
          have hP : P = Patches2D.assemble px py w o false ic roi := by
            simpa using h.symm
          subst hP
          simp only [assemble_patch_x, assemble_patch_y]
          refine ⟨hpx6, hpy6, hpx4, hpy4, Or.inr (by rw [hpx4, hpx3]; exact how),
            Or.inr (by rw [hpy4, hpy3]; exact how), ?_, ?_,
            fun hroi => by subst hroi; exact assemble_ilocs_none px py w o false ic⟩
          · intro hic
            rw [hpx5] at hic
            obtain ⟨hxm, hym, ⟨n, hn⟩, -⟩ := hbint hic
            exact ⟨by rw [hpx1, hxm], by rw [hpx3, hpx4]; linarith,
              ⟨n, by rw [hpx2, hn]⟩⟩
          · intro hic
            rw [hpy5] at hic
            obtain ⟨hxm, hym, -, ⟨n, hn⟩⟩ := hbint hic
            exact ⟨by rw [hpy1, hym], by rw [hpy3, hpy4]; linarith,
              ⟨n, by rw [hpy2, hn]⟩⟩
        | true =>
          rw [if_pos rfl] at h
          have hicf : ic = false := hbtic rfl
          rcases hux : px.update ((max px.tight_width py.tight_width : ℤ) : ℚ)
            with ⟨px', e1⟩
          rw [hux] at h
          cases e1 with
          | some e =>
            simp at h
          | none =>
            simp only [] at h
            rcases huy : py.update ((max px.tight_width py.tight_width : ℤ) : ℚ)
              with ⟨py', e2⟩
            rw [huy] at h
            cases e2 with
            | some e =>
              simp at h
            | none =>
              simp only [] at h
              have hP : P = Patches2D.assemble px' py'
                  ((max px.tight_width py.tight_width : ℤ) : ℚ) o true ic roi := by
                simpa using h.symm
              subst hP
              simp only [assemble_patch_x, assemble_patch_y]
              obtain ⟨hX1, hX2, hX3⟩ := update_ok hux
              obtain ⟨hY1, hY2, hY3⟩ := update_ok huy
              have hxfields : px'.xmin = px.xmin ∧ px'.xmax = px.xmax ∧
                  px'.patch_overlap = px.patch_overlap ∧ px'.int_coords = px.int_coords ∧
                  px'.patch_width = ((max px.tight_width py.tight_width : ℤ) : ℚ) := by
                rw [hX1]
                exact ⟨rfl, rfl, rfl, rfl, rfl⟩
              have hyfields : py'.xmin = py.xmin ∧ py'.xmax = py.xmax ∧
                  py'.patch_overlap = py.patch_overlap ∧ py'.int_coords = py.int_coords ∧
                  py'.patch_width = ((max px.tight_width py.tight_width : ℤ) : ℚ) := by
                rw [hY1]
                exact ⟨rfl, rfl, rfl, rfl, rfl⟩
              have hdx : px'.delta = px.delta := by
                unfold Patches1D.delta
                rw [hxfields.1, hxfields.2.1]
              have hdy : py'.delta = py.delta := by
                unfold Patches1D.delta
                rw [hyfields.1, hyfields.2.1]
              have hwx : px'.delta ≤ px'.patch_width ∨
                  px'.patch_overlap < px'.patch_width := by
                rw [hdx, hxfields.2.2.1, hxfields.2.2.2.2]
                by_cases hcase : px.delta ≤ px.patch_width
                · left
                  have hc1 : px._count = 1 := count_one_of_le px hpx6 hcase
                  refine le_trans (tight_width_ge_delta px hc1) ?_
                  exact_mod_cast Int.cast_le.mpr (le_max_left _ _)
                · right
                  push_neg at hcase
                  rw [hpx4]
                  refine lt_of_lt_of_le ?_
                    (show ((px.tight_width : ℤ) : ℚ)
                      ≤ ((max px.tight_width py.tight_width : ℤ) : ℚ) from
                      Int.cast_le.mpr (le_max_left _ _))
                  rw [← hpx4]
                  exact tight_width_gt_overlap px hpx6
                    (by rw [hpx4, hpx3]; exact how) hcase
              have hwy : py'.delta ≤ py'.patch_width ∨
                  py'.patch_overlap < py'.patch_width := by
                rw [hdy, hyfields.2.2.1, hyfields.2.2.2.2]
                by_cases hcase : py.delta ≤ py.patch_width
                · left
                  have hc1 : py._count = 1 := count_one_of_le py hpy6 hcase
                  refine le_trans (tight_width_ge_delta py hc1) ?_
                  exact_mod_cast Int.cast_le.mpr (le_max_right _ _)
                · right
                  push_neg at hcase
                  rw [hpy4]
                  refine lt_of_lt_of_le ?_
                    (show ((py.tight_width : ℤ) : ℚ)
                      ≤ ((max px.tight_width py.tight_width : ℤ) : ℚ) from
                      Int.cast_le.mpr (le_max_right _ _))
                  rw [← hpy4]
                  exact tight_width_gt_overlap py hpy6
                    (by rw [hpy4, hpy3]; exact how) hcase
              refine ⟨hX2, hY2, by rw [hxfields.2.2.1, hpx4],
                by rw [hyfields.2.2.1, hpy4], hwx, hwy, ?_, ?_,
                fun hroi => by subst hroi; exact assemble_ilocs_none px' py' _ o true ic⟩
              · intro hic
                rw [hxfields.2.2.2.1, hpx5, hicf] at hic
                exact absurd hic (by simp)
              · intro hic
                rw [hyfields.2.2.2.1, hpy5, hicf] at hic
                exact absurd hic (by simp)

/-- C4: with no ROI, the constructed index list has exactly
`count_x * count_y` pairs, enumerated in row-major order
(`iy, ix = divmod(i, count_x)`), and the union of the corresponding tile
boxes covers the full bounding box with no gaps. -/
theorem no_roi_grid_complete (el : Element) (w o : ℚ) (P : Patches2D)
    (ho : 0 ≤ o) (h : Patches2D.make el none w o = .ok P) :
    P.ilocs.length = (P.patch_x._count * P.patch_y._count).toNat ∧
    (∀ k, k < P.ilocs.length → P.ilocs[k]? = some (P.pair_indices k)) ∧
    (∀ x y : ℚ, P.patch_x.xmin ≤ x → x ≤ P.patch_x.xmax →
      P.patch_y.xmin ≤ y → y ≤ P.patch_y.xmax →
      ∃ pr ∈ P.ilocs, (P.iloc pr.1 pr.2).1 ≤ x ∧ x ≤ (P.iloc pr.1 pr.2).2.2.1 ∧
        (P.iloc pr.1 pr.2).2.1 ≤ y ∧ y ≤ (P.iloc pr.1 pr.2).2.2.2) := by
  obtain ⟨hcx, hcy, hox, hoy, hwx, hwy, hix, hiy, hilocs⟩ := make2_ok_inv el none w o P h
  have hmap := hilocs rfl
  refine ⟨?_, ?_, ?_⟩
  · rw [hmap, List.length_map, List.length_range]
  · intro k hk
    rw [hmap] at hk ⊢
    rw [List.getElem?_map]
    rw [List.length_map, List.length_range] at hk
    rw [List.getElem?_range hk]
    rfl
  · intro x y hx0 hx1 hy0 hy1
    have hcx1 : 1 ≤ P.patch_x._count := one_le_count _ _ hcx hwx
    have hcy1 : 1 ≤ P.patch_y._count := one_le_count _ _ hcy hwy
    obtain ⟨i, hi, hia, hib⟩ := Patches1D.coverage P.patch_x
      (by rw [hox]; exact ho) hcx hwx hix x hx0 hx1
    obtain ⟨j, hj, hja, hjb⟩ := Patches1D.coverage P.patch_y
      (by rw [hoy]; exact ho) hcy hwy hiy y hy0 hy1
    set cxn := P.patch_x._count.toNat with hcxn
    set cyn := P.patch_y._count.toNat with hcyn
    have hcxnc : (cxn : ℤ) = P.patch_x._count := Int.toNat_of_nonneg (by omega)
    have hcync : (cyn : ℤ) = P.patch_y._count := Int.toNat_of_nonneg (by omega)
    have hin : i < cxn := by omega
    have hjn : j < cyn := by omega
    have hcxn0 : 0 < cxn := by omega
    have hN : (P.patch_x._count * P.patch_y._count).toNat = cxn * cyn := by
      have h1 : ((cxn * cyn : ℕ) : ℤ) = P.patch_x._count * P.patch_y._count := by
        push_cast
        rw [hcxnc, hcync]
      rw [← h1, Int.toNat_natCast]
    refine ⟨(i, j), ?_, hia, hib, hja, hjb⟩
    rw [hmap]
    apply List.mem_map.mpr
    refine ⟨j * cxn + i, List.mem_range.mpr ?_, ?_⟩
    · rw [hN]
      calc j * cxn + i < j * cxn + cxn := by omega
        _ = (j + 1) * cxn := by ring
        _ ≤ cyn * cxn := Nat.mul_le_mul_right cxn (by omega)
        _ = cxn * cyn := Nat.mul_comm _ _
    · show ((j * cxn + i) % cxn, (j * cxn + i) / cxn) = (i, j)
      rw [Nat.mul_comm j cxn, Nat.mul_add_mod, Nat.mod_eq_of_lt hin,
        Nat.mul_add_div hcxn0, Nat.div_eq_of_lt hin, Nat.add_zero]

/-- Witness for C4: a `2 × 1` raster tiled with width `1`, overlap `0`
yields the grid `gridC4` with `2 * 1` pairs. -/
theorem no_roi_grid_complete_witness :
    Patches2D.make (.image 2 1) none 1 0 = .ok gridC4 ∧
    gridC4.ilocs.length = (gridC4.patch_x._count * gridC4.patch_y._count).toNat := by
  have hmk : Patches2D.make (.image 2 1) none 1 0 = .ok gridC4 := by
    norm_num [Patches2D.make, Element.bounds, Patches1D.make, Patches1D.count,
      Patches1D.delta, ceil_eval, Patches2D.assemble, gridC4, Int.toNat_ofNat,
      List.range_succ, List.range_zero, List.filterMap_append, List.filterMap_cons,
      List.filterMap_nil]
    decide
  exact ⟨hmk, (no_roi_grid_complete (.image 2 1) 1 0 gridC4 (le_refl 0) hmk).1⟩

end SopaPatching
